import Mathlib

/-!
Verification of the init-project core (hooks/init-project.py): category-driven
symlink materialization and marker-based document splicing.

Modelling conventions:
* Paths and file names are `String`s; file contents are `List Char`.
* A directory is an association list from entry name to entry; names are the
  keys, as on a real filesystem.
* Symbolic links are modelled by their relative-path target (a list of path
  components).  Links created by this program point at existing source items
  and therefore resolve; pre-existing target-directory entries are likewise
  modelled as resolving, so `Path.exists()` on an entry present in the
  directory is `true`.
* A missing directory is `Option.none`; `Path.iterdir()` on a missing
  directory raises `FileNotFoundError`, modelled with `Except`.
-/

namespace InitProject

/-! ### Character classes (ASCII models of Python's `\w`, `\S`, `str.strip`) -/

def isWordChar (c : Char) : Bool := c.isAlpha || c.isDigit || c = '_'

def pyWhitespace (c : Char) : Bool :=
  c = ' ' || c = '\t' || c = '\n' || c = '\r' || c = '\x0b' || c = '\x0c'

/-! ### List-of-characters string primitives -/

/-- `listStartsWith p s` is true when `p` is an initial segment of `s`. -/
def listStartsWith : List Char → List Char → Bool
  | [], _ => true
  | _ :: _, [] => false
  | p :: ps, c :: cs => p = c && listStartsWith ps cs

/-- Drop the prefix `p` from `s`, or fail: anchored match as in `re.match`. -/
def dropPre : List Char → List Char → Option (List Char)
  | [], s => some s
  | _ :: _, [] => none
  | p :: ps, c :: cs => if p = c then dropPre ps cs else none

/-- Split `s` at the first occurrence of pattern `p`: returns the part before
the occurrence and the part after it (leftmost match, as in `re` / `str.find`). -/
def splitAtPattern (p : List Char) : List Char → Option (List Char × List Char)
  | [] => if listStartsWith p [] then some ([], []) else none
  | c :: rest =>
    if listStartsWith p (c :: rest) then some ([], List.drop p.length (c :: rest))
    else
      match splitAtPattern p rest with
      | some (pre, post) => some (c :: pre, post)
      | none => none

/-- `p` occurs somewhere inside `s` (Python's `p in s` on strings). -/
def occursIn (p s : List Char) : Bool := (splitAtPattern p s).isSome

/-- One pass of `re.sub(b + ".*?" + e, r, s, flags=DOTALL)` with a literal
replacement `r`: every non-overlapping lazily-matched span from `b` through
`e` is replaced by `r`; the replacement is not rescanned.  Fuelled structural
recursion; `replaceSpans` supplies enough fuel. -/
def replaceSpansAux (b e r : List Char) : Nat → List Char → List Char
  | 0, s => s
  | n + 1, s =>
    match splitAtPattern b s with
    | none => s
    | some (pre, afterB) =>
      match splitAtPattern e afterB with
      | none => s
      | some (_, afterE) => pre ++ r ++ replaceSpansAux b e r n afterE

def replaceSpans (b e r s : List Char) : List Char :=
  replaceSpansAux b e r (s.length + 1) s

/-- Python `content.split("\n")`. -/
def splitOnNl : List Char → List (List Char)
  | [] => [[]]
  | c :: rest =>
    if c = '\n' then [] :: splitOnNl rest
    else
      match splitOnNl rest with
      | [] => [[c]]
      | l :: ls => (c :: l) :: ls

/-- Python newline-join of a list of lines. -/
def joinNl : List (List Char) → List Char
  | [] => []
  | [l] => l
  | l :: ls => l ++ '\n' :: joinNl ls

/-- Python `str.rstrip()` (trailing whitespace removed). -/
def rstripChars (s : List Char) : List Char :=
  (s.reverse.dropWhile pyWhitespace).reverse

/-- Python `str.strip()` (leading and trailing whitespace removed). -/
def stripChars (s : List Char) : List Char :=
  rstripChars (s.dropWhile pyWhitespace)

/-- Python `dirname.replace("-available", "")` specialised to empty
replacement: delete every non-overlapping occurrence of `p`, left to right.
Fuelled; each step consumes at least one character, so `s.length` fuel is
enough. -/
def dropOccAux (p : List Char) : Nat → List Char → List Char
  | 0, s => s
  | _ + 1, [] => []
  | n + 1, c :: rest =>
    if listStartsWith p (c :: rest) && decide (p ≠ []) then
      dropOccAux p n (List.drop (p.length - 1) rest)
    else
      c :: dropOccAux p n rest

/-- `source_dir.name.replace("-available", "")` from
`create_symlinks_from_available` (line 76 of hooks/init-project.py). -/
def sourceNameOf (dn : String) : String :=
  ⟨dropOccAux "-available".toList dn.toList.length dn.toList⟩

/-! ### Filesystem data model -/

/-- An immediate child of a source category (or `local`) directory.
`mdFile stem` is a regular file named `stem ++ ".md"`; `dirWithSkill` is a
subdirectory containing a `SKILL.md` manifest; the last two constructors are
children the program skips (a directory with no manifest, a non-`.md` file). -/
inductive SrcEntry where
  | mdFile (stem : String)
  | dirWithSkill (dname : String)
  | dirNoSkill (dname : String)
  | plainFile (fname : String)
deriving DecidableEq, Repr

/-- Look up a name in an association list (first match, like a directory). -/
def alistLookup {β : Type} (n : String) : List (String × β) → Option β
  | [] => none
  | (m, e) :: t => if m = n then some e else alistLookup n t

/-- A `*-available` source root.  `present = false` models a missing root:
every `category_dir.exists()` check is then false. -/
structure SourceDir where
  dname : String
  present : Bool
  subdirs : List (String × List SrcEntry)
deriving DecidableEq, Repr

/-- `(source_dir / cat).exists()` together with its `iterdir()` listing. -/
def srcSubdir (sd : SourceDir) (cat : String) : Option (List SrcEntry) :=
  if sd.present then alistLookup cat sd.subdirs else none

/-- An entry of a target directory: a symbolic link (with its relative-path
target, which resolves — see module header) or an ordinary non-link path with
its content. -/
inductive TgtEntry where
  | symlink (target : List String)
  | plain (content : String)
deriving DecidableEq, Repr

def TgtEntry.isLink : TgtEntry → Bool
  | .symlink _ => true
  | .plain _ => false

/-- A target directory that exists: entry name ↦ entry. -/
abbrev TargetDir := List (String × TgtEntry)

def dirLookup (n : String) (t : TargetDir) : Option TgtEntry := alistLookup n t

/-- `link_path.unlink()`: remove the first (the) entry named `n`. -/
def dirErase (n : String) : TargetDir → TargetDir
  | [] => []
  | (m, e) :: t => if m = n then t else (m, e) :: dirErase n t

inductive FsErr where
  | fileNotFound
deriving DecidableEq, Repr

/-- What the symlinks purge leaves behind: only the non-link entries. -/
def purgeKeep (t : TargetDir) : TargetDir := t.filter (fun p => ! p.2.isLink)

/-- `remove_existing_symlinks` (lines 52–59): unlink every symlink directly in
the directory, count them.  `iterdir()` on a missing directory raises
`FileNotFoundError`. -/
def remove_existing_symlinks : Option TargetDir → Except FsErr (TargetDir × Nat)
  | none => .error .fileNotFound
  | some t => .ok (purgeKeep t, (t.filter (fun p => p.2.isLink)).length)

/-! ### create_symlinks_from_available (lines 62–144) -/

/-- Running state of one `create_symlinks_from_available` call: the target
directory, the created-links counter, and the warnings printed so far. -/
structure CreateState where
  tgt : TargetDir
  count : Nat
  warnings : List String
deriving DecidableEq, Repr

def warnMsg (linkName : String) : String :=
  "Warning: " ++ linkName ++ " exists and is not a symlink, skipping"

/-- Lines 91–101 / 113–123: claim `linkName` in the target directory.  An
existing symlink is unlinked and replaced; an existing non-link path is left
alone with a warning; otherwise the link is created.  The link target is
`../<sdName>/<cat>/<linkName>` in both source shapes. -/
def tryLink (sdName cat linkName : String) (st : CreateState) : CreateState :=
  match dirLookup linkName st.tgt with
  | some (.symlink _) =>
    { tgt := dirErase linkName st.tgt ++
        [(linkName, .symlink ["..", sdName, cat, linkName])]
      count := st.count + 1
      warnings := st.warnings }
  | some (.plain _) =>
    { st with warnings := st.warnings ++ [warnMsg linkName] }
  | none =>
    { st with
      tgt := st.tgt ++ [(linkName, .symlink ["..", sdName, cat, linkName])]
      count := st.count + 1 }

/-- Lines 83–123: one child of an active category directory.  Flat `.md`
files and manifest directories are eligible (subject to the exclude list,
keyed `"<srcName>/<name>"`); anything else is skipped. -/
def processCatEntry (sdName srcName cat : String) (excludes : List String)
    (st : CreateState) : SrcEntry → CreateState
  | .mdFile stem =>
    if (srcName ++ "/" ++ stem) ∈ excludes then st
    else tryLink sdName cat (stem ++ ".md") st
  | .dirWithSkill dn =>
    if (srcName ++ "/" ++ dn) ∈ excludes then st
    else tryLink sdName cat dn st
  | .dirNoSkill _ => st
  | .plainFile _ => st

/-- Lines 125–142: one child of the `local/` directory.  No exclude check;
if any path with the link's name already exists the item is silently
skipped (no replacement, no warning). -/
def processLocalEntry (sdName : String) (st : CreateState) : SrcEntry → CreateState
  | .mdFile stem =>
    let ln := stem ++ ".md"
    if (dirLookup ln st.tgt).isSome then st
    else
      { st with
        tgt := st.tgt ++ [(ln, .symlink ["..", sdName, "local", ln])]
        count := st.count + 1 }
  | .dirWithSkill dn =>
    if (dirLookup dn st.tgt).isSome then st
    else
      { st with
        tgt := st.tgt ++ [(dn, .symlink ["..", sdName, "local", dn])]
        count := st.count + 1 }
  | .dirNoSkill _ => st
  | .plainFile _ => st

/-- Lines 78–123: the loop over `categories`. A category directory that does
not exist is skipped. -/
def catPhase (sd : SourceDir) (tgt : TargetDir) (categories excludes : List String) :
    CreateState :=
  categories.foldl
    (fun st cat =>
      match srcSubdir sd cat with
      | none => st
      | some items =>
        items.foldl (processCatEntry sd.dname (sourceNameOf sd.dname) cat excludes) st)
    ⟨tgt, 0, []⟩

/-- Lines 125–142: the `local/` pass. -/
def localPhase (sd : SourceDir) (st : CreateState) : CreateState :=
  match srcSubdir sd "local" with
  | none => st
  | some items => items.foldl (processLocalEntry sd.dname) st

/-- `create_symlinks_from_available(source_dir, target_dir, categories,
excludes)` on an existing target directory: returns the final target
directory, the created count and the warnings. -/
def create_symlinks_from_available (sd : SourceDir) (tgt : TargetDir)
    (categories excludes : List String) : CreateState :=
  localPhase sd (catPhase sd tgt categories excludes)

/-- Result of one purge-then-recreate pass over one item kind. -/
structure MatResult where
  tgt : TargetDir
  purged : Nat
  created : Nat
  warnings : List String
deriving DecidableEq, Repr

/-- The materializer for one kind, as run by `main` (lines 303–315): purge the
target directory's symlinks, then recreate from the source tree. -/
def materialize (sd : SourceDir) (tgt : Option TargetDir)
    (categories excludes : List String) : Except FsErr MatResult :=
  match remove_existing_symlinks tgt with
  | .error e => .error e
  | .ok (t1, purged) =>
    let st := create_symlinks_from_available sd t1 categories excludes
    .ok ⟨st.tgt, purged, st.count, st.warnings⟩

/-! ### extract_sections (lines 147–200) -/

/-- The literal prefix of `r"^## Category: (\w+)"`. -/
def catMarker : List Char :=
  ['#', '#', ' ', 'C', 'a', 't', 'e', 'g', 'o', 'r', 'y', ':', ' ']

/-- The literal prefix of `r"^### (\S+)"`, also used to re-render headers. -/
def itemMarker : List Char := ['#', '#', '#', ' ']

/-- `re.match(r"^## Category: (\w+)", line)`: anchored prefix, then the
maximal nonempty run of word characters is captured. -/
def matchCategory (line : List Char) : Option (List Char) :=
  match dropPre catMarker line with
  | none => none
  | some rest =>
    let w := rest.takeWhile isWordChar
    if w.isEmpty then none else some w

/-- `re.match(r"^### (\S+)", line)`: anchored prefix, then the maximal
nonempty run of non-whitespace characters is captured. -/
def matchItem (line : List Char) : Option (List Char) :=
  match dropPre itemMarker line with
  | none => none
  | some rest =>
    let w := rest.takeWhile (fun c => ! pyWhitespace c)
    if w.isEmpty then none else some w

/-- Loop state of `extract_sections`. -/
structure ExtState where
  currentCategory : Option (List Char)
  currentSection : Option (List Char)
  sectionContent : List (List Char)
  inTarget : Bool
  extracted : List (List Char)
deriving DecidableEq, Repr

def initExtState : ExtState := ⟨none, none, [], false, []⟩

/-- Python truthiness of `current_section` (`None` and `""` are falsy). -/
def secTruthy (st : ExtState) : Bool := ! (st.currentSection.getD []).isEmpty

/-- `in_target_category and current_section and section_content`. -/
def flushCond (st : ExtState) : Bool :=
  st.inTarget && secTruthy st && ! st.sectionContent.isEmpty

/-- Lines 166–169 / 180–184 / 194–198: emit the finished block — its
re-rendered `### ` header, its body, and one blank separator line. -/
def flushBlock (st : ExtState) : List (List Char) :=
  st.extracted ++ (itemMarker ++ st.currentSection.getD []) :: st.sectionContent ++ [[]]

/-- The `extracted` list as it stands once a pending block (if any) is
flushed; both header lines and the end of the document flush this way. -/
def closeOut (st : ExtState) : List (List Char) :=
  if flushCond st then flushBlock st else st.extracted

/-- One iteration of the `for line in content.split("\n")` loop. -/
def extractStep (categories : List (List Char)) (st : ExtState) (line : List Char) :
    ExtState :=
  match matchCategory line with
  | some name =>
    { currentCategory := some name
      currentSection := none
      sectionContent := []
      inTarget := decide (name ∈ categories)
      extracted := closeOut st }
  | none =>
    match matchItem line with
    | some name =>
      { st with
        currentSection := some name
        sectionContent := []
        extracted := closeOut st }
    | none =>
      if st.currentSection.isSome then
        { st with sectionContent := st.sectionContent ++ [line] }
      else st

/-- `extract_sections` on the file's content (the file-reading wrapper and the
unused `section_type` argument are not modelled): split on newlines, run the
state machine, flush the last block, join and strip. -/
def extract_sections (content : List Char) (categories : List (List Char)) :
    List Char :=
  stripChars (joinNl (closeOut ((splitOnNl content).foldl (extractStep categories) initExtState)))

/-! ### update_claude_md (lines 203–275) -/

def beginAgentsM : List Char := "<!-- BEGIN:AGENTS -->".toList
def endAgentsM : List Char := "<!-- END:AGENTS -->".toList
def beginSkillsM : List Char := "<!-- BEGIN:SKILLS -->".toList
def endSkillsM : List Char := "<!-- END:SKILLS -->".toList

/-- Lines 222–228: the freshly built AGENTS block. -/
def agent_section (instr : List Char) : List Char :=
  ("<!-- BEGIN:AGENTS -->\n" ++
   "<!-- Auto-generated agent instructions - DO NOT EDIT between markers -->\n" ++
   "<!-- Run /init-project to regenerate -->\n\n").toList ++
  instr ++ "\n\n<!-- END:AGENTS -->".toList

/-- Lines 230–236: the freshly built SKILLS block. -/
def skill_section (instr : List Char) : List Char :=
  ("<!-- BEGIN:SKILLS -->\n" ++
   "<!-- Auto-generated skill instructions - DO NOT EDIT between markers -->\n" ++
   "<!-- Run /init-project to regenerate -->\n\n").toList ++
  instr ++ "\n\n<!-- END:SKILLS -->".toList

/-- Lines 238–244: the full guidelines section. -/
def guidelines_section (agentInstr skillInstr : List Char) : List Char :=
  "\n## Agent and Skill Guidelines\n\n".toList ++
  agent_section agentInstr ++ "\n\n".toList ++ skill_section skillInstr ++
  "\n".toList

def hasAgentMarkers (content : List Char) : Bool :=
  occursIn beginAgentsM content && occursIn endAgentsM content

def hasSkillMarkers (content : List Char) : Bool :=
  occursIn beginSkillsM content && occursIn endSkillsM content

/-- The content transformation of `update_claude_md` (file I/O stripped):
`existing` is the current CLAUDE.md content, or `none` when the file does not
exist.  The two `re.sub` calls are modelled with a literal replacement (the
built blocks contain no regex replacement escapes). -/
def update_claude_md (existing : Option (List Char))
    (agentInstr skillInstr : List Char) : List Char :=
  match existing with
  | none => "# CLAUDE.md\n".toList ++ guidelines_section agentInstr skillInstr
  | some content =>
    if hasAgentMarkers content && hasSkillMarkers content then
      replaceSpans beginSkillsM endSkillsM (skill_section skillInstr)
        (replaceSpans beginAgentsM endAgentsM (agent_section agentInstr) content)
    else
      rstripChars content ++ '\n' :: guidelines_section agentInstr skillInstr

/-! ### load_project_config (lines 30–49) -/

/-- How one run of the config loader ends: a loaded configuration, a clean
`sys.exit` with printed messages, or a propagated exception (the stack trace
of an uncaught `json.JSONDecodeError`). -/
inductive LoadOutcome (α : Type) where
  | ok (cfg : α)
  | exited (code : Nat) (messages : List String)
  | raised (err : String)
deriving DecidableEq, Repr

/-- `load_project_config`: `direct` is the content of
`<root>/project.json` when that file exists, `nested` the content of
`<root>/.claude/project.json`; `parseJson` models `json.load`. -/
def load_project_config {α : Type} (direct nested : Option String)
    (parseJson : String → Except String α) : LoadOutcome α :=
  let chosen := match direct with | some s => some s | none => nested
  match chosen with
  | none =>
    .exited 1 ["Error: project.json not found.",
               "Run /init-project to create one interactively."]
  | some s =>
    match parseJson s with
    | .ok cfg => .ok cfg
    | .error e => .raised e

/-! ### Structured reference documents (the data model of §3 "Reference
document", rendered to the exact line shapes `extract_sections` parses) -/

/-- One `### <name>` subsection with its body lines. -/
structure SubSec where
  sname : List Char
  body : List (List Char)
deriving DecidableEq, Repr

/-- One `## Category: <name>` section with its subsections. -/
structure CatSec where
  cname : List Char
  subs : List SubSec
deriving DecidableEq, Repr

def renderSub (ss : SubSec) : List (List Char) := (itemMarker ++ ss.sname) :: ss.body

def renderSubs (l : List SubSec) : List (List Char) := (l.map renderSub).flatten

def renderCat (cs : CatSec) : List (List Char) :=
  (catMarker ++ cs.cname) :: renderSubs cs.subs

def renderDoc (l : List CatSec) : List (List Char) := (l.map renderCat).flatten

/-- The block `extract_sections` emits for one captured subsection. -/
def blockOf (ss : SubSec) : List (List Char) :=
  (itemMarker ++ ss.sname) :: ss.body ++ [[]]

def blocksOf (l : List SubSec) : List (List Char) := (l.map blockOf).flatten

/-- The lines the extraction should produce: the blocks of the subsections of
the active categories, in source order. -/
def expectedLines (l : List CatSec) (active : List (List Char)) : List (List Char) :=
  (l.map (fun cs => if cs.cname ∈ active then blocksOf cs.subs else [])).flatten

/-- A body line: not a header of either kind, and newline-free. -/
def WfLine (l : List Char) : Prop :=
  matchCategory l = none ∧ matchItem l = none ∧ '\n' ∉ l

/-- A subsection whose header round-trips through `r"^### (\S+)"` and whose
body is nonempty (the code drops header-only subsections). -/
def WfSub (ss : SubSec) : Prop :=
  ss.sname ≠ [] ∧ (∀ c ∈ ss.sname, pyWhitespace c = false) ∧
  ss.body ≠ [] ∧ ∀ l ∈ ss.body, WfLine l

/-- A category whose name round-trips through `r"^## Category: (\w+)"`. -/
def WfCat (cs : CatSec) : Prop :=
  cs.cname ≠ [] ∧ (∀ c ∈ cs.cname, isWordChar c = true) ∧ ∀ ss ∈ cs.subs, WfSub ss

def WfDoc (l : List CatSec) : Prop := ∀ cs ∈ l, WfCat cs

instance (l : List Char) : Decidable (WfLine l) := by
  unfold WfLine; infer_instance

instance (ss : SubSec) : Decidable (WfSub ss) := by
  unfold WfSub; infer_instance

instance (cs : CatSec) : Decidable (WfCat cs) := by
  unfold WfCat; infer_instance

instance (l : List CatSec) : Decidable (WfDoc l) := by
  unfold WfDoc; infer_instance

/-- The target-directory name a source entry would claim, if eligible. -/
def linkNameOf : SrcEntry → Option String
  | .mdFile stem => some (stem ++ ".md")
  | .dirWithSkill dn => some dn
  | .dirNoSkill _ => none
  | .plainFile _ => none

/-- No occurrence of pattern `p` starts at any of the first `k` positions of
`s`. -/
def noEarlyMatch (p s : List Char) (k : Nat) : Prop :=
  ∀ i, i < k → listStartsWith p (List.drop i s) = false

instance (p s : List Char) (k : Nat) : Decidable (noEarlyMatch p s k) := by
  unfold noEarlyMatch; infer_instance

/-- Sample `json.load` model for concrete runs of the config loader. -/
def parseSample : String → Except String Nat :=
  fun s => if s = "ok" then .ok 7 else .error "bad JSON"

/-- A CLAUDE.md that has the AGENTS marker pair (around placeholder text) but
no SKILLS markers. -/
def claudeDocAgentsOnly : List Char :=
  "# T\nIntro\n\n<!-- BEGIN:AGENTS -->\nOLDAGENT\n<!-- END:AGENTS -->\n".toList

/-- A small source tree for concrete idempotence runs. -/
def idemSrc : SourceDir := ⟨"skills-available", true, [("dev", [.mdFile "a"])]⟩

/-- A target directory holding one ordinary file and one stale symlink. -/
def idemTgt0 : TargetDir := [("keep.md", .plain "k"), ("old.md", .symlink ["z"])]

/-- The result both materialize runs over `idemSrc`/`idemTgt0` produce. -/
def idemR : MatResult :=
  ⟨[("keep.md", .plain "k"),
    ("a.md", .symlink ["..", "skills-available", "dev", "a.md"])], 1, 1, []⟩

/-- A source tree whose only item lives under `local/`. -/
def localOnlySrc : SourceDir :=
  ⟨"skills-available", true, [("local", [.mdFile "itm"])]⟩

/-- The materialize result over `localOnlySrc` with an empty target and no
active categories. -/
def localOnlyR : MatResult :=
  ⟨[("itm.md", .symlink ["..", "skills-available", "local", "itm.md"])], 0, 1, []⟩

/-- A source tree with the same item name `itm` both in the `dev` category and
under `local/` — the spec's "project-specific override" scenario. -/
def devAndLocalSrc : SourceDir :=
  ⟨"skills-available", true, [("dev", [.mdFile "itm"]), ("local", [.mdFile "itm"])]⟩

/-- The reference document of the spec's example scenario: `## Category: dev`
with `### alpha` (body "do X") and `## Category: php` with `### beta`
(body "do Y"). -/
def refDocSecs : List CatSec :=
  [⟨"dev".toList, [⟨"alpha".toList, ["do X".toList]⟩]⟩,
   ⟨"php".toList, [⟨"beta".toList, ["do Y".toList]⟩]⟩]

end InitProject

namespace InitProject

/-! ### Helper lemmas -/

lemma foldl_const {α β : Type} (f : β → α → β) (h : ∀ st a, f st a = st) :
    ∀ (l : List α) (st : β), l.foldl f st = st := by
  intro l
  induction l with
  | nil => intro st; rfl
  | cons a l ih => intro st; rw [List.foldl_cons, h st a]; exact ih st

lemma alistLookup_append_left {β : Type} (n : String) (t : List (String × β))
    (l : List (String × β)) (e : β) (h : alistLookup n t = some e) :
    alistLookup n (t ++ l) = some e := by
  induction t with
  | nil => simp [alistLookup] at h
  | cons p t ih =>
    obtain ⟨m, e'⟩ := p
    by_cases hm : m = n
    · simp [alistLookup, hm] at h ⊢; exact h
    · simp [alistLookup, hm] at h ⊢; exact ih h

lemma alistLookup_append_single_ne {β : Type} (n m : String) (t : List (String × β))
    (e : β) (h : m ≠ n) : alistLookup n (t ++ [(m, e)]) = alistLookup n t := by
  induction t with
  | nil => simp [alistLookup, h]
  | cons p t ih =>
    obtain ⟨m', e'⟩ := p
    by_cases hm : m' = n <;> simp [alistLookup, hm, ih]

lemma alistLookup_append_single_eq {β : Type} (n : String) (t : List (String × β))
    (e : β) (h : alistLookup n t = none) : alistLookup n (t ++ [(n, e)]) = some e := by
  induction t with
  | nil => simp [alistLookup]
  | cons p t ih =>
    obtain ⟨m', e'⟩ := p
    by_cases hm : m' = n
    · simp [alistLookup, hm] at h
    · simp [alistLookup, hm] at h ⊢; exact ih h

/-! ### C9: configuration loading -/

/-- C9: the loader uses the deployed path (`project.json` directly under the
root) whenever that file exists — regardless of the development copy — falls
back to `.claude/project.json` otherwise, exits with status 1 and the two
explanatory messages when neither exists, and propagates a parse failure of an
existing file as an exception rather than swallowing it. -/
theorem load_config_spec {α : Type} (parse : String → Except String α)
    (nested : Option String) (s t : String) (cfg : α) (e : String)
    (hs : parse s = .ok cfg) (ht : parse t = .error e) :
    load_project_config (some s) nested parse = .ok cfg ∧
    load_project_config (some t) nested parse = .raised e ∧
    load_project_config none (some s) parse = .ok cfg ∧
    load_project_config none (some t) parse = .raised e ∧
    load_project_config (α := α) none none parse =
      .exited 1 ["Error: project.json not found.",
                 "Run /init-project to create one interactively."] := by
  refine ⟨?_, ?_, ?_, ?_, rfl⟩ <;> simp [load_project_config, hs, ht]

/-- C9 witness: a concrete loader run through all five branches. -/
theorem load_config_spec_witness :
    load_project_config (some "ok") (some "junk") parseSample = .ok 7 ∧
    load_project_config (some "junk") (some "junk") parseSample = .raised "bad JSON" ∧
    load_project_config none (some "ok") parseSample = .ok 7 ∧
    load_project_config none (some "junk") parseSample = .raised "bad JSON" ∧
    load_project_config (α := Nat) none none parseSample =
      .exited 1 ["Error: project.json not found.",
                 "Run /init-project to create one interactively."] :=
  load_config_spec parseSample (some "junk") "ok" "junk" 7 "bad JSON" rfl rfl

/-! ### C3: missing source root / target directory -/

/-- C3 counterexample: with a missing target directory, `materialize` does not
degrade to "zero items found" — the purge step's `iterdir()` raises
`FileNotFoundError` — even though the source root exists and has items. -/
theorem materialize_missing_target_raises :
    materialize ⟨"skills-available", true, [("dev", [.mdFile "a"])]⟩ none ["dev"] [] =
      .error .fileNotFound := rfl

/-- C3 amended: only the missing-source-root half degrades.  With the source
root absent (every category and `local` existence check fails) and the target
directory present, `materialize` succeeds, creating zero links and emitting no
warnings; the purge still removes and counts whatever symlinks the target
held. -/
theorem materialize_missing_source_degrades (dn : String)
    (subdirs : List (String × List SrcEntry)) (t : TargetDir)
    (cats excl : List String) :
    materialize ⟨dn, false, subdirs⟩ (some t) cats excl =
      .ok ⟨purgeKeep t, (t.filter (fun p => p.2.isLink)).length, 0, []⟩ := by
  have hcat : catPhase ⟨dn, false, subdirs⟩ (purgeKeep t) cats excl =
      ⟨purgeKeep t, 0, []⟩ := by
    unfold catPhase
    refine foldl_const _ ?_ cats _
    intro st cat
    simp [srcSubdir]
  simp [materialize, remove_existing_symlinks, create_symlinks_from_available,
    localPhase, srcSubdir, hcat]

/-! ### C1: exclusion -/

/-- C1 counterexample: an item under `local/` whose `"skills/<name>"` id is in
the exclude list is nevertheless symlinked — the `local/` pass performs no
exclude check. -/
theorem local_ignores_excludes_cex :
    create_symlinks_from_available
      ⟨"skills-available", true, [("local", [.mdFile "itm"])]⟩ [] [] ["skills/itm"] =
      ⟨[("itm.md", .symlink ["..", "skills-available", "local", "itm.md"])], 1, []⟩ :=
  rfl

/-- C1 amended: exclusion applies only to items enumerated from active
category directories — processing an excluded category item (either shape)
changes nothing and creates no symlink — while an item under `local/` is
linked regardless of the exclude list whenever no entry with its name exists
in the target directory. -/
theorem exclusion_category_only (sdName srcName cat : String) (excl : List String)
    (st : CreateState) (stem dn : String)
    (hstem : (srcName ++ "/" ++ stem) ∈ excl)
    (hdn : (srcName ++ "/" ++ dn) ∈ excl) :
    processCatEntry sdName srcName cat excl st (.mdFile stem) = st ∧
    processCatEntry sdName srcName cat excl st (.dirWithSkill dn) = st ∧
    (dirLookup (stem ++ ".md") st.tgt = none →
      processLocalEntry sdName st (.mdFile stem) =
        ⟨st.tgt ++ [(stem ++ ".md", .symlink ["..", sdName, "local", stem ++ ".md"])],
         st.count + 1, st.warnings⟩) ∧
    (dirLookup dn st.tgt = none →
      processLocalEntry sdName st (.dirWithSkill dn) =
        ⟨st.tgt ++ [(dn, .symlink ["..", sdName, "local", dn])],
         st.count + 1, st.warnings⟩) := by
  refine ⟨by simp [processCatEntry, hstem], by simp [processCatEntry, hdn], ?_, ?_⟩ <;>
    { intro h; simp [processLocalEntry, h] }

/-- C1 amended witness: both shapes of excluded item at a concrete state. -/
theorem exclusion_category_only_witness :
    processCatEntry "skills-available" "skills" "dev" ["skills/itm", "skills/skl"]
      ⟨[], 0, []⟩ (.mdFile "itm") = ⟨[], 0, []⟩ ∧
    processCatEntry "skills-available" "skills" "dev" ["skills/itm", "skills/skl"]
      ⟨[], 0, []⟩ (.dirWithSkill "skl") = ⟨[], 0, []⟩ ∧
    (dirLookup "itm.md" ([] : TargetDir) = none →
      processLocalEntry "skills-available" ⟨[], 0, []⟩ (.mdFile "itm") =
        ⟨[("itm.md", .symlink ["..", "skills-available", "local", "itm.md"])], 1, []⟩) ∧
    (dirLookup "skl" ([] : TargetDir) = none →
      processLocalEntry "skills-available" ⟨[], 0, []⟩ (.dirWithSkill "skl") =
        ⟨[("skl", .symlink ["..", "skills-available", "local", "skl"])], 1, []⟩) :=
  exclusion_category_only "skills-available" "skills" "dev" ["skills/itm", "skills/skl"]
    ⟨[], 0, []⟩ "itm" "skl" (by decide) (by decide)

/-! ### C4: collision handling -/

/-- C4 counterexample: a `local/` item whose name already exists as a symbolic
link in the target directory is NOT removed and replaced — the `local/` pass
silently skips it (the stale link target survives, nothing is created, and no
warning is emitted). -/
theorem local_existing_symlink_not_replaced_cex :
    create_symlinks_from_available
      ⟨"skills-available", true, [("local", [.mdFile "itm"])]⟩
      [("itm.md", .symlink ["stale"])] [] [] =
      ⟨[("itm.md", .symlink ["stale"])], 0, []⟩ :=
  rfl

/-- C4 amended: for a (non-excluded) item of an active category, an existing
symlink at its name is unlinked and replaced and the counter advances, while
an existing non-link path is left untouched and only a warning is recorded;
for an item under `local/`, ANY existing path at its name — symlink or not —
causes a silent skip with neither replacement nor warning. -/
theorem collision_handling (sdName srcName cat : String) (excl : List String)
    (st : CreateState) (stem dn : String) (v : List String) (s : String)
    (hex : (srcName ++ "/" ++ stem) ∉ excl) :
    (dirLookup (stem ++ ".md") st.tgt = some (.symlink v) →
      processCatEntry sdName srcName cat excl st (.mdFile stem) =
        ⟨dirErase (stem ++ ".md") st.tgt ++
           [(stem ++ ".md", .symlink ["..", sdName, cat, stem ++ ".md"])],
         st.count + 1, st.warnings⟩) ∧
    (dirLookup (stem ++ ".md") st.tgt = some (.plain s) →
      processCatEntry sdName srcName cat excl st (.mdFile stem) =
        ⟨st.tgt, st.count, st.warnings ++ [warnMsg (stem ++ ".md")]⟩) ∧
    ((dirLookup (stem ++ ".md") st.tgt).isSome = true →
      processLocalEntry sdName st (.mdFile stem) = st) ∧
    ((dirLookup dn st.tgt).isSome = true →
      processLocalEntry sdName st (.dirWithSkill dn) = st) := by
  refine ⟨?_, ?_, ?_, ?_⟩ <;>
    { intro h; simp [processCatEntry, processLocalEntry, tryLink, hex, h] }

/-- C4 amended witness: a symlink collision on a category item together with
local-pass skips at a concrete state. -/
theorem collision_handling_witness :
    (dirLookup "itm.md" [("itm.md", TgtEntry.symlink ["stale"])] =
        some (.symlink ["stale"]) →
      processCatEntry "skills-available" "skills" "dev" []
        ⟨[("itm.md", .symlink ["stale"])], 0, []⟩ (.mdFile "itm") =
        ⟨dirErase "itm.md" [("itm.md", .symlink ["stale"])] ++
           [("itm.md", .symlink ["..", "skills-available", "dev", "itm.md"])],
         1, []⟩) ∧
    (dirLookup "itm.md" [("itm.md", TgtEntry.symlink ["stale"])] =
        some (.plain "x") →
      processCatEntry "skills-available" "skills" "dev" []
        ⟨[("itm.md", .symlink ["stale"])], 0, []⟩ (.mdFile "itm") =
        ⟨[("itm.md", .symlink ["stale"])], 0, [warnMsg "itm.md"]⟩) ∧
    ((dirLookup "itm.md" [("itm.md", TgtEntry.symlink ["stale"])]).isSome = true →
      processLocalEntry "skills-available"
        ⟨[("itm.md", .symlink ["stale"])], 0, []⟩ (.mdFile "itm") =
        ⟨[("itm.md", .symlink ["stale"])], 0, []⟩) ∧
    ((dirLookup "skl" [("itm.md", TgtEntry.symlink ["stale"])]).isSome = true →
      processLocalEntry "skills-available"
        ⟨[("itm.md", .symlink ["stale"])], 0, []⟩ (.dirWithSkill "skl") =
        ⟨[("itm.md", .symlink ["stale"])], 0, []⟩) :=
  collision_handling "skills-available" "skills" "dev" []
    ⟨[("itm.md", .symlink ["stale"])], 0, []⟩ "itm" "skl" ["stale"] "x" (by decide)

/-! ### C10: category names are captured up to the first non-word character -/

lemma dropPre_self (p s : List Char) : dropPre p (p ++ s) = some s := by
  induction p with
  | nil => rfl
  | cons c p ih => simp [dropPre, ih]

lemma takeWhile_append_stop (q : Char → Bool) (w : List Char) (c : Char)
    (r : List Char) (hw : ∀ a ∈ w, q a = true) (hc : q c = false) :
    (w ++ c :: r).takeWhile q = w := by
  induction w with
  | nil => simp [List.takeWhile_cons, hc]
  | cons a w ih =>
    have ha : q a = true := hw a (by simp)
    simpa [List.takeWhile_cons, ha] using ih (fun x hx => hw x (by simp [hx]))

/-- C10: on a `## Category: <name>` line whose `<name>` continues with a
non-word character, the regex captures exactly the maximal leading
word-character prefix, and the loop's in-target flag becomes true exactly when
that prefix (never the full name) is in the active-categories list. -/
theorem category_prefix_capture (w : List Char) (c : Char) (r : List Char)
    (cats : List (List Char)) (st : ExtState)
    (hw : w ≠ []) (hwc : ∀ a ∈ w, isWordChar a = true) (hc : isWordChar c = false) :
    matchCategory (catMarker ++ (w ++ c :: r)) = some w ∧
    (extractStep cats st (catMarker ++ (w ++ c :: r))).inTarget = decide (w ∈ cats) := by
  have hm : matchCategory (catMarker ++ (w ++ c :: r)) = some w := by
    cases w with
    | nil => exact absurd rfl hw
    | cons a w' =>
      have ha : isWordChar a = true := hwc a (by simp)
      have ht : List.takeWhile isWordChar (w' ++ c :: r) = w' :=
        takeWhile_append_stop isWordChar w' c r (fun x hx => hwc x (by simp [hx])) hc
      simp [matchCategory, dropPre_self, List.takeWhile_cons, ha, ht]
  exact ⟨hm, by simp [extractStep, hm]⟩

/-- C10 witness: `## Category: dev-tools` is captured as `dev` and is active
for the active-categories list `[dev]`. -/
theorem category_prefix_capture_witness :
    matchCategory (catMarker ++ ("dev".toList ++ '-' :: "tools".toList)) =
      some "dev".toList ∧
    (extractStep ["dev".toList] initExtState
        (catMarker ++ ("dev".toList ++ '-' :: "tools".toList))).inTarget =
      decide ("dev".toList ∈ ["dev".toList]) :=
  category_prefix_capture "dev".toList '-' "tools".toList ["dev".toList] initExtState
    (by decide) (by decide) (by decide)

/-! ### C2: documents lacking one or both marker pairs -/

/-- C2 counterexample: the target document has an AGENTS pair but no SKILLS
pair; the claim requires the AGENTS section to be replaced in place, yet the
old between-marker text survives in the output (the code appends the full
fresh guidelines section instead). -/
theorem partial_markers_not_replaced_cex :
    hasAgentMarkers claudeDocAgentsOnly = true ∧
    hasSkillMarkers claudeDocAgentsOnly = false ∧
    occursIn "OLDAGENT".toList
      (update_claude_md (some claudeDocAgentsOnly)
        "FRESHA".toList "FRESHS".toList) = true := by
  decide

/-- C2 amended: when the existing document lacks one or both marker pairs, the
code appends the whole guidelines section — fresh blocks for BOTH sections —
after the trailing-whitespace-stripped existing content; a section whose
marker pair is present is NOT replaced in place.  No content other than
trailing whitespace is discarded. -/
theorem missing_markers_appends (content agentInstr skillInstr : List Char)
    (h : hasAgentMarkers content = false ∨ hasSkillMarkers content = false) :
    update_claude_md (some content) agentInstr skillInstr =
      rstripChars content ++ '\n' :: guidelines_section agentInstr skillInstr := by
  rcases h with h | h <;> simp [update_claude_md, h]

/-- C2 amended witness. -/
theorem missing_markers_appends_witness :
    update_claude_md (some claudeDocAgentsOnly) "FRESHA".toList "FRESHS".toList =
      rstripChars claudeDocAgentsOnly ++
        '\n' :: guidelines_section "FRESHA".toList "FRESHS".toList :=
  missing_markers_appends claudeDocAgentsOnly "FRESHA".toList "FRESHS".toList
    (Or.inr (by decide))

/-! ### C5: idempotence of purge-then-recreate -/

lemma purgeKeep_append_symlink (t : TargetDir) (n : String) (v : List String) :
    purgeKeep (t ++ [(n, .symlink v)]) = purgeKeep t := by
  simp [purgeKeep, List.filter_append, TgtEntry.isLink]

lemma purgeKeep_dirErase_link (n : String) (t : TargetDir) (e : TgtEntry)
    (hl : dirLookup n t = some e) (he : e.isLink = true) :
    purgeKeep (dirErase n t) = purgeKeep t := by
  induction t with
  | nil => simp [dirLookup, alistLookup] at hl
  | cons p t ih =>
    obtain ⟨m, e'⟩ := p
    by_cases hm : m = n
    · subst hm
      simp [dirLookup, alistLookup] at hl
      subst hl
      simp [dirErase, purgeKeep, List.filter_cons, he]
    · have hl' : dirLookup n t = some e := by
        simpa [dirLookup, alistLookup, hm] using hl
      have ih' := ih hl'
      cases hE : e'.isLink <;>
        simp [dirErase, hm, purgeKeep, List.filter_cons, hE] <;>
        simpa [purgeKeep] using ih'

lemma purgeKeep_tryLink (sdName cat ln : String) (st : CreateState) :
    purgeKeep (tryLink sdName cat ln st).tgt = purgeKeep st.tgt := by
  unfold tryLink
  cases hl : dirLookup ln st.tgt with
  | none => simp [purgeKeep_append_symlink]
  | some e =>
    cases e with
    | symlink v =>
      simp [purgeKeep_append_symlink, purgeKeep_dirErase_link ln st.tgt _ hl rfl]
    | plain s => simp

lemma purgeKeep_processCatEntry (sdName srcName cat : String) (excl : List String)
    (st : CreateState) (it : SrcEntry) :
    purgeKeep (processCatEntry sdName srcName cat excl st it).tgt =
      purgeKeep st.tgt := by
  cases it with
  | mdFile stem =>
    by_cases h : (srcName ++ "/" ++ stem) ∈ excl <;>
      simp [processCatEntry, h, purgeKeep_tryLink]
  | dirWithSkill dn =>
    by_cases h : (srcName ++ "/" ++ dn) ∈ excl <;>
      simp [processCatEntry, h, purgeKeep_tryLink]
  | dirNoSkill _ => rfl
  | plainFile _ => rfl

lemma purgeKeep_processLocalEntry (sdName : String) (st : CreateState)
    (it : SrcEntry) :
    purgeKeep (processLocalEntry sdName st it).tgt = purgeKeep st.tgt := by
  cases it with
  | mdFile stem =>
    by_cases h : (dirLookup (stem ++ ".md") st.tgt).isSome <;>
      simp [processLocalEntry, h, purgeKeep_append_symlink]
  | dirWithSkill dn =>
    by_cases h : (dirLookup dn st.tgt).isSome <;>
      simp [processLocalEntry, h, purgeKeep_append_symlink]
  | dirNoSkill _ => rfl
  | plainFile _ => rfl

lemma purgeKeep_catItems (sdName srcName cat : String) (excl : List String) :
    ∀ (items : List SrcEntry) (st : CreateState),
      purgeKeep ((items.foldl (processCatEntry sdName srcName cat excl) st).tgt) =
        purgeKeep st.tgt := by
  intro items
  induction items with
  | nil => intro st; rfl
  | cons it items ih =>
    intro st
    rw [List.foldl_cons, ih, purgeKeep_processCatEntry]

lemma purgeKeep_localItems (sdName : String) :
    ∀ (items : List SrcEntry) (st : CreateState),
      purgeKeep ((items.foldl (processLocalEntry sdName) st).tgt) =
        purgeKeep st.tgt := by
  intro items
  induction items with
  | nil => intro st; rfl
  | cons it items ih =>
    intro st
    rw [List.foldl_cons, ih, purgeKeep_processLocalEntry]

lemma purgeKeep_catFold (sd : SourceDir) (excl : List String) :
    ∀ (cats : List String) (st : CreateState),
      purgeKeep ((List.foldl (fun st cat =>
          match srcSubdir sd cat with
          | none => st
          | some items =>
            items.foldl (processCatEntry sd.dname (sourceNameOf sd.dname) cat excl) st)
        st cats).tgt) = purgeKeep st.tgt := by
  intro cats
  induction cats with
  | nil => intro st; rfl
  | cons cat cats ih =>
    intro st
    rw [List.foldl_cons, ih]
    cases hs : srcSubdir sd cat with
    | none => simp
    | some items => simp [purgeKeep_catItems]

lemma purgeKeep_catPhase (sd : SourceDir) (t : TargetDir) (cats excl : List String) :
    purgeKeep ((catPhase sd t cats excl).tgt) = purgeKeep t := by
  unfold catPhase
  exact purgeKeep_catFold sd excl cats ⟨t, 0, []⟩

lemma purgeKeep_create (sd : SourceDir) (t : TargetDir) (cats excl : List String) :
    purgeKeep ((create_symlinks_from_available sd t cats excl).tgt) = purgeKeep t := by
  unfold create_symlinks_from_available localPhase
  cases hs : srcSubdir sd "local" with
  | none => simp [purgeKeep_catPhase]
  | some items => simp [purgeKeep_localItems, purgeKeep_catPhase]

lemma purgeKeep_idem (t : TargetDir) : purgeKeep (purgeKeep t) = purgeKeep t := by
  induction t with
  | nil => rfl
  | cons p t ih =>
    obtain ⟨m, e⟩ := p
    cases hE : e.isLink <;> simp [purgeKeep, List.filter_cons, hE]

/-- C5: with a fixed configuration and an unchanged source tree, a second
purge-then-recreate run reproduces the first run's final target directory (in
particular the same set of symbolic links) and reports the same creation
count. -/
theorem materialize_idempotent (sd : SourceDir) (t0 : TargetDir)
    (cats excl : List String) (r1 r2 : MatResult)
    (h1 : materialize sd (some t0) cats excl = .ok r1)
    (h2 : materialize sd (some r1.tgt) cats excl = .ok r2) :
    r2.tgt = r1.tgt ∧ r2.created = r1.created := by
  simp only [materialize, remove_existing_symlinks, Except.ok.injEq] at h1 h2
  subst h1
  dsimp only at h2
  rw [purgeKeep_create, purgeKeep_idem] at h2
  subst h2
  exact ⟨rfl, rfl⟩

/-- C5 witness: over `idemSrc` with one kept ordinary file and one stale
symlink in the target, both runs produce `idemR` (checked by `rfl` in the
hypotheses), so the final directories and creation counts agree. -/
theorem materialize_idempotent_witness :
    idemR.tgt = idemR.tgt ∧ idemR.created = idemR.created :=
  materialize_idempotent idemSrc idemTgt0 ["dev"] [] idemR idemR rfl rfl

/-! ### C8: local items are always materialized -/

lemma localFold_preserves_lookup (sdName ln : String) (e : TgtEntry) :
    ∀ (items : List SrcEntry) (st : CreateState),
      dirLookup ln st.tgt = some e →
      dirLookup ln ((items.foldl (processLocalEntry sdName) st).tgt) = some e := by
  intro items
  induction items with
  | nil => intro st h; exact h
  | cons it items ih =>
    intro st h
    rw [List.foldl_cons]
    apply ih
    cases it with
    | mdFile stem =>
      by_cases hx : (dirLookup (stem ++ ".md") st.tgt).isSome
      · simpa [processLocalEntry, hx] using h
      · simp only [processLocalEntry, hx, if_neg, Bool.false_eq_true, not_false_iff,
          if_false]
        exact alistLookup_append_left ln st.tgt _ e h
    | dirWithSkill dn =>
      by_cases hx : (dirLookup dn st.tgt).isSome
      · simpa [processLocalEntry, hx] using h
      · simp only [processLocalEntry, hx, if_neg, Bool.false_eq_true, not_false_iff,
          if_false]
        exact alistLookup_append_left ln st.tgt _ e h
    | dirNoSkill _ => exact h
    | plainFile _ => exact h

lemma localFold_creates (sdName stem : String) :
    ∀ (items : List SrcEntry) (st : CreateState),
      dirLookup (stem ++ ".md") st.tgt = none →
      (∀ e ∈ items, linkNameOf e = some (stem ++ ".md") → e = .mdFile stem) →
      SrcEntry.mdFile stem ∈ items →
      dirLookup (stem ++ ".md") ((items.foldl (processLocalEntry sdName) st).tgt) =
        some (.symlink ["..", sdName, "local", stem ++ ".md"]) := by
  intro items
  induction items with
  | nil => intro st _ _ hmem; simp at hmem
  | cons it items ih =>
    intro st hfree huniq hmem
    rw [List.foldl_cons]
    by_cases hit : it = SrcEntry.mdFile stem
    · subst hit
      have hx : (dirLookup (stem ++ ".md") st.tgt).isSome = false := by
        simp [hfree]
      have hstep : (processLocalEntry sdName st (.mdFile stem)).tgt =
          st.tgt ++ [(stem ++ ".md", .symlink ["..", sdName, "local", stem ++ ".md"])] := by
        simp [processLocalEntry, hx]
      apply localFold_preserves_lookup
      rw [hstep]
      exact alistLookup_append_single_eq _ _ _ hfree
    · have hmem' : SrcEntry.mdFile stem ∈ items := by
        cases hmem with
        | head => exact absurd rfl hit
        | tail _ h => exact h
      have huniq' : ∀ e ∈ items, linkNameOf e = some (stem ++ ".md") →
          e = .mdFile stem :=
        fun e he => huniq e (List.mem_cons_of_mem _ he)
      have hname : linkNameOf it ≠ some (stem ++ ".md") := by
        intro hEq
        exact hit (huniq it (List.mem_cons_self it items) hEq)
      have hfree' : dirLookup (stem ++ ".md") (processLocalEntry sdName st it).tgt =
          none := by
        cases it with
        | mdFile s =>
          have hne : s ++ ".md" ≠ stem ++ ".md" := by
            intro hEq
            exact hname (by simp [linkNameOf, hEq])
          by_cases hx : (dirLookup (s ++ ".md") st.tgt).isSome
          · simpa [processLocalEntry, hx] using hfree
          · simp only [processLocalEntry, hx, Bool.false_eq_true, not_false_iff,
              if_false]
            exact (alistLookup_append_single_ne _ _ _ _ hne).trans hfree
        | dirWithSkill d =>
          have hne : d ≠ stem ++ ".md" := by
            intro hEq
            exact hname (by simp [linkNameOf, hEq])
          by_cases hx : (dirLookup d st.tgt).isSome
          · simpa [processLocalEntry, hx] using hfree
          · simp only [processLocalEntry, hx, Bool.false_eq_true, not_false_iff,
              if_false]
            exact (alistLookup_append_single_ne _ _ _ _ hne).trans hfree
        | dirNoSkill _ => exact hfree
        | plainFile _ => exact hfree
      exact ih _ hfree' huniq' hmem'

/-- C8 counterexample: a source tree holding `itm` both in the active `dev`
category and under `local/`.  The category loop links `itm.md` to the `dev`
item first; the `local/` pass then sees the name taken and silently skips, so
materialization creates NO symbolic link for the eligible `local/` item — the
sole `itm.md` entry points into `dev`, refuting "for every source tree and
active-categories list, a link for the local item is created". -/
theorem local_preempted_by_category_cex :
    materialize devAndLocalSrc (some []) ["dev"] [] =
      .ok ⟨[("itm.md", .symlink ["..", "skills-available", "dev", "itm.md"])],
           0, 1, []⟩ :=
  rfl

/-- C8 amended: an eligible `.md` item under `local/` is symlinked by
materialize for EVERY active-categories list (the empty list included)
provided its name is still free when the `local/` pass reaches it: no
non-link path survives the purge under that name, no active-category item
claimed it, and no other local item renders to the same link name.  When the
name is already taken — e.g. by a same-named item of an active category — the
local item is silently skipped and no link for it is created. -/
theorem local_linked_when_name_free (sd : SourceDir) (t0 : TargetDir)
    (cats excl : List String) (stem : String) (litems : List SrcEntry)
    (r : MatResult)
    (hp : sd.present = true)
    (hl : alistLookup "local" sd.subdirs = some litems)
    (hmem : SrcEntry.mdFile stem ∈ litems)
    (huniq : ∀ e ∈ litems, linkNameOf e = some (stem ++ ".md") → e = .mdFile stem)
    (hfree : dirLookup (stem ++ ".md") (catPhase sd (purgeKeep t0) cats excl).tgt = none)
    (hmat : materialize sd (some t0) cats excl = .ok r) :
    dirLookup (stem ++ ".md") r.tgt =
      some (.symlink ["..", sd.dname, "local", stem ++ ".md"]) := by
  simp only [materialize, remove_existing_symlinks, Except.ok.injEq] at hmat
  subst hmat
  dsimp only
  unfold create_symlinks_from_available localPhase
  rw [show srcSubdir sd "local" = some litems from by simp [srcSubdir, hp, hl]]
  exact localFold_creates sd.dname stem litems _ hfree huniq hmem

/-- C8 amended witness: with no active categories at all, the `local/` item's
name is free and the item is linked. -/
theorem local_linked_when_name_free_witness :
    dirLookup "itm.md" localOnlyR.tgt =
      some (.symlink ["..", "skills-available", "local", "itm.md"]) :=
  local_linked_when_name_free localOnlySrc [] [] [] "itm" [.mdFile "itm"] localOnlyR
    rfl rfl (by decide) (by decide) rfl rfl

/-! ### C6: splicing a document that has both marker pairs -/

lemma listStartsWith_self_append (p s : List Char) :
    listStartsWith p (p ++ s) = true := by
  induction p with
  | nil => rfl
  | cons c p ih => simp [listStartsWith, ih]

lemma splitAtPattern_self (p r : List Char) :
    splitAtPattern p (p ++ r) = some ([], r) := by
  cases hpr : p ++ r with
  | nil =>
    rcases List.append_eq_nil.mp hpr with ⟨hp, hr⟩
    subst hp; subst hr; rfl
  | cons ch rest =>
    have h1 : listStartsWith p (ch :: rest) = true := by
      rw [← hpr]; exact listStartsWith_self_append p r
    have h2 : List.drop p.length (ch :: rest) = r := by
      rw [← hpr]; exact List.drop_left p r
    simp [splitAtPattern, h1, h2]

lemma splitAtPattern_noEarly (p : List Char) :
    ∀ (a r : List Char),
      noEarlyMatch p (a ++ p ++ r) a.length →
      splitAtPattern p (a ++ p ++ r) = some (a, r) := by
  intro a
  induction a with
  | nil =>
    intro r _
    simpa using splitAtPattern_self p r
  | cons ch a ih =>
    intro r h
    have h0 : listStartsWith p (ch :: (a ++ p ++ r)) = false := by
      have := h 0 (by simp)
      simpa using this
    have hrec := ih r (fun i hi => by
      have := h (i + 1) (by simpa using Nat.succ_lt_succ hi)
      simpa using this)
    show splitAtPattern p (ch :: (a ++ p ++ r)) = some (ch :: a, r)
    simp only [List.append_assoc] at h0 hrec ⊢
    simp [splitAtPattern, h0, hrec]

lemma occursIn_mid (p u v : List Char) : occursIn p (u ++ p ++ v) = true := by
  induction u with
  | nil => simp [occursIn, splitAtPattern_self]
  | cons ch u ih =>
    show occursIn p (ch :: (u ++ p ++ v)) = true
    unfold occursIn at ih ⊢
    cases hs : splitAtPattern p (u ++ p ++ v) with
    | none => rw [hs] at ih; simp at ih
    | some pr =>
      obtain ⟨pre, post⟩ := pr
      simp only [List.append_assoc] at hs ⊢
      cases h0 : listStartsWith p (ch :: (u ++ (p ++ v))) <;>
        simp [splitAtPattern, h0, hs]

lemma occursIn_false_split (p s : List Char) (h : occursIn p s = false) :
    splitAtPattern p s = none := by
  unfold occursIn at h
  exact Option.not_isSome_iff_eq_none.mp (by simp [h])

lemma replaceSpansAux_no_b (b e r : List Char) (n : Nat) (s : List Char)
    (h : splitAtPattern b s = none) : replaceSpansAux b e r n s = s := by
  cases n with
  | zero => rfl
  | succ m => simp [replaceSpansAux, h]

lemma replaceSpansAux_step (b e r : List Char) (n : Nat)
    (s pre afterB mid afterE : List Char)
    (hb : splitAtPattern b s = some (pre, afterB))
    (he : splitAtPattern e afterB = some (mid, afterE)) :
    replaceSpansAux b e r (n + 1) s = pre ++ r ++ replaceSpansAux b e r n afterE := by
  simp [replaceSpansAux, hb, he]

/-- One `re.sub` pass on a document with exactly one `b … e` span. -/
lemma replaceSpans_one (b e r a x rest : List Char)
    (hb : splitAtPattern b (a ++ b ++ (x ++ e ++ rest)) = some (a, x ++ e ++ rest))
    (he : splitAtPattern e (x ++ e ++ rest) = some (x, rest))
    (hno : occursIn b rest = false) :
    replaceSpans b e r (a ++ b ++ (x ++ e ++ rest)) = a ++ (r ++ rest) := by
  unfold replaceSpans
  rw [replaceSpansAux_step b e r _ _ _ _ _ _ hb he,
      replaceSpansAux_no_b b e r _ rest (occursIn_false_split b rest hno)]
  simp

/-- C6: on a document of the generated layout — an AGENTS marker pair followed
by a SKILLS marker pair, each occurring exactly once — splicing replaces only
the text between each pair (markers inclusive, rebuilt) and reproduces every
character outside the pairs (`a`, `m`, `c`) byte-identically. -/
theorem markers_spliced_in_place (a x m y c ai si : List Char)
    (h1 : noEarlyMatch beginAgentsM
      (a ++ beginAgentsM ++
        (x ++ endAgentsM ++ (m ++ beginSkillsM ++ (y ++ endSkillsM ++ c))))
      a.length)
    (h2 : noEarlyMatch endAgentsM
      (x ++ endAgentsM ++ (m ++ beginSkillsM ++ (y ++ endSkillsM ++ c))) x.length)
    (h3 : occursIn beginAgentsM (m ++ beginSkillsM ++ (y ++ endSkillsM ++ c)) = false)
    (h4 : noEarlyMatch beginSkillsM
      ((a ++ agent_section ai ++ m) ++ beginSkillsM ++ (y ++ endSkillsM ++ c))
      (a ++ agent_section ai ++ m).length)
    (h5 : noEarlyMatch endSkillsM (y ++ endSkillsM ++ c) y.length)
    (h6 : occursIn beginSkillsM c = false) :
    update_claude_md
      (some (a ++ beginAgentsM ++
        (x ++ endAgentsM ++ (m ++ beginSkillsM ++ (y ++ endSkillsM ++ c))))) ai si =
      a ++ agent_section ai ++ m ++ skill_section si ++ c := by
  have hbA : occursIn beginAgentsM
      (a ++ beginAgentsM ++
        (x ++ endAgentsM ++ (m ++ beginSkillsM ++ (y ++ endSkillsM ++ c)))) = true :=
    occursIn_mid beginAgentsM a
      (x ++ endAgentsM ++ (m ++ beginSkillsM ++ (y ++ endSkillsM ++ c)))
  have heA : occursIn endAgentsM
      (a ++ beginAgentsM ++
        (x ++ endAgentsM ++ (m ++ beginSkillsM ++ (y ++ endSkillsM ++ c)))) = true := by
    have h := occursIn_mid endAgentsM (a ++ beginAgentsM ++ x)
      (m ++ beginSkillsM ++ (y ++ endSkillsM ++ c))
    have e : (a ++ beginAgentsM ++ x) ++ endAgentsM ++
        (m ++ beginSkillsM ++ (y ++ endSkillsM ++ c)) =
        a ++ beginAgentsM ++
          (x ++ endAgentsM ++ (m ++ beginSkillsM ++ (y ++ endSkillsM ++ c))) := by
      simp [List.append_assoc]
    rwa [e] at h
  have hbS : occursIn beginSkillsM
      (a ++ beginAgentsM ++
        (x ++ endAgentsM ++ (m ++ beginSkillsM ++ (y ++ endSkillsM ++ c)))) = true := by
    have h := occursIn_mid beginSkillsM (a ++ beginAgentsM ++ (x ++ endAgentsM ++ m))
      (y ++ endSkillsM ++ c)
    have e : (a ++ beginAgentsM ++ (x ++ endAgentsM ++ m)) ++ beginSkillsM ++
        (y ++ endSkillsM ++ c) =
        a ++ beginAgentsM ++
          (x ++ endAgentsM ++ (m ++ beginSkillsM ++ (y ++ endSkillsM ++ c))) := by
      simp [List.append_assoc]
    rwa [e] at h
  have heS : occursIn endSkillsM
      (a ++ beginAgentsM ++
        (x ++ endAgentsM ++ (m ++ beginSkillsM ++ (y ++ endSkillsM ++ c)))) = true := by
    have h := occursIn_mid endSkillsM
      (a ++ beginAgentsM ++ (x ++ endAgentsM ++ (m ++ beginSkillsM ++ y))) c
    have e : (a ++ beginAgentsM ++ (x ++ endAgentsM ++ (m ++ beginSkillsM ++ y))) ++
        endSkillsM ++ c =
        a ++ beginAgentsM ++
          (x ++ endAgentsM ++ (m ++ beginSkillsM ++ (y ++ endSkillsM ++ c))) := by
      simp [List.append_assoc]
    rwa [e] at h
  have hpass1 : replaceSpans beginAgentsM endAgentsM (agent_section ai)
      (a ++ beginAgentsM ++
        (x ++ endAgentsM ++ (m ++ beginSkillsM ++ (y ++ endSkillsM ++ c)))) =
      a ++ (agent_section ai ++ (m ++ beginSkillsM ++ (y ++ endSkillsM ++ c))) :=
    replaceSpans_one beginAgentsM endAgentsM (agent_section ai) a x
      (m ++ beginSkillsM ++ (y ++ endSkillsM ++ c))
      (splitAtPattern_noEarly beginAgentsM a
        (x ++ endAgentsM ++ (m ++ beginSkillsM ++ (y ++ endSkillsM ++ c))) h1)
      (splitAtPattern_noEarly endAgentsM x
        (m ++ beginSkillsM ++ (y ++ endSkillsM ++ c)) h2)
      h3
  have e2 : a ++ (agent_section ai ++ (m ++ beginSkillsM ++ (y ++ endSkillsM ++ c))) =
      (a ++ agent_section ai ++ m) ++ beginSkillsM ++ (y ++ endSkillsM ++ c) := by
    simp [List.append_assoc]
  have hpass2 : replaceSpans beginSkillsM endSkillsM (skill_section si)
      ((a ++ agent_section ai ++ m) ++ beginSkillsM ++ (y ++ endSkillsM ++ c)) =
      (a ++ agent_section ai ++ m) ++ (skill_section si ++ c) :=
    replaceSpans_one beginSkillsM endSkillsM (skill_section si)
      (a ++ agent_section ai ++ m) y c
      (splitAtPattern_noEarly beginSkillsM (a ++ agent_section ai ++ m)
        (y ++ endSkillsM ++ c) h4)
      (splitAtPattern_noEarly endSkillsM y c h5)
      h6
  simp only [update_claude_md, hasAgentMarkers, hasSkillMarkers, hbA, heA, hbS, heS,
    Bool.and_self, Bool.and_true, Bool.true_and, if_true, reduceIte]
  rw [hpass1, e2, hpass2]
  simp [List.append_assoc]

set_option maxRecDepth 4000 in
/-- C6 witness: a concrete document with placeholder text inside both pairs:
title, middle, and tail survive byte-identically; both spans are rebuilt. -/
theorem markers_spliced_in_place_witness :
    update_claude_md
      (some ("# T\n".toList ++ beginAgentsM ++
        ("\nOLDA\n".toList ++ endAgentsM ++
          ("\nMID\n".toList ++ beginSkillsM ++
            ("\nOLDS\n".toList ++ endSkillsM ++ "\nTAIL".toList)))))
      "FA".toList "FS".toList =
      "# T\n".toList ++ agent_section "FA".toList ++ "\nMID\n".toList ++
        skill_section "FS".toList ++ "\nTAIL".toList :=
  markers_spliced_in_place "# T\n".toList "\nOLDA\n".toList "\nMID\n".toList
    "\nOLDS\n".toList "\nTAIL".toList "FA".toList "FS".toList
    (by decide) (by decide) (by decide) (by decide) (by decide) (by decide)

/-! ### C7: category-filtered section extraction -/

lemma matchCategory_item (name : List Char) :
    matchCategory (itemMarker ++ name) = none := rfl

lemma matchCategory_header (name : List Char) (h1 : name ≠ [])
    (h2 : ∀ c ∈ name, isWordChar c = true) :
    matchCategory (catMarker ++ name) = some name := by
  cases name with
  | nil => exact absurd rfl h1
  | cons a w =>
    have ht : List.takeWhile isWordChar (a :: w) = a :: w :=
      List.takeWhile_eq_self_iff.mpr h2
    simp [matchCategory, dropPre_self, ht]

lemma matchItem_header (name : List Char) (h1 : name ≠ [])
    (h2 : ∀ c ∈ name, pyWhitespace c = false) :
    matchItem (itemMarker ++ name) = some name := by
  cases name with
  | nil => exact absurd rfl h1
  | cons a w =>
    have ht : List.takeWhile (fun c => ! pyWhitespace c) (a :: w) = a :: w :=
      List.takeWhile_eq_self_iff.mpr (fun c hc => by simp [h2 c hc])
    simp [matchItem, dropPre_self, ht]

lemma extractStep_catHeader (cats : List (List Char)) (st : ExtState)
    (name : List Char) (h1 : name ≠ []) (h2 : ∀ c ∈ name, isWordChar c = true) :
    extractStep cats st (catMarker ++ name) =
      ⟨some name, none, [], decide (name ∈ cats), closeOut st⟩ := by
  simp [extractStep, matchCategory_header name h1 h2, closeOut]

lemma extractStep_itemHeader (cats : List (List Char)) (st : ExtState)
    (name : List Char) (h1 : name ≠ []) (h2 : ∀ c ∈ name, pyWhitespace c = false) :
    extractStep cats st (itemMarker ++ name) =
      { st with
        currentSection := some name
        sectionContent := []
        extracted := closeOut st } := by
  simp [extractStep, matchCategory_item, matchItem_header name h1 h2, closeOut]

lemma extractStep_body (cats : List (List Char)) (st : ExtState) (l : List Char)
    (hc : matchCategory l = none) (hi : matchItem l = none)
    (hs : st.currentSection.isSome = true) :
    extractStep cats st l =
      { st with sectionContent := st.sectionContent ++ [l] } := by
  simp [extractStep, hc, hi, hs]

lemma foldl_body (cats : List (List Char)) :
    ∀ (body : List (List Char)) (st : ExtState),
      (∀ l ∈ body, matchCategory l = none ∧ matchItem l = none) →
      st.currentSection.isSome = true →
      body.foldl (extractStep cats) st =
        { st with sectionContent := st.sectionContent ++ body } := by
  intro body
  induction body with
  | nil => intro st _ _; simp
  | cons l body ih =>
    intro st hw hs
    rw [List.foldl_cons,
      extractStep_body cats st l (hw l (by simp)).1 (hw l (by simp)).2 hs,
      ih _ (fun x hx => hw x (by simp [hx])) (by simpa using hs)]
    simp

lemma blocksOf_cons (ss : SubSec) (l : List SubSec) :
    blocksOf (ss :: l) = blockOf ss ++ blocksOf l := by
  simp [blocksOf]

lemma closeOut_sectionClean (st : ExtState) (h : st.currentSection = none) :
    closeOut st = st.extracted := by
  simp [closeOut, flushCond, secTruthy, h]

lemma foldl_subs (cats : List (List Char)) :
    ∀ (subs : List SubSec) (st : ExtState),
      (∀ ss ∈ subs, WfSub ss) →
      closeOut ((renderSubs subs).foldl (extractStep cats) st) =
        closeOut st ++ (if st.inTarget then blocksOf subs else []) := by
  intro subs
  induction subs with
  | nil =>
    intro st _
    cases h : st.inTarget <;> simp [renderSubs, blocksOf]
  | cons ss subs ih =>
    intro st hw
    obtain ⟨hn, hnws, hbody, hlines⟩ := hw ss (by simp)
    have hw' : ∀ s ∈ subs, WfSub s := fun s hs => hw s (by simp [hs])
    have hsec : (ss.sname.isEmpty : Bool) = false := by
      cases hsn : ss.sname with
      | nil => exact absurd hsn hn
      | cons a w => rfl
    have hbd : (ss.body.isEmpty : Bool) = false := by
      cases hb : ss.body with
      | nil => exact absurd hb hbody
      | cons a w => rfl
    rw [show renderSubs (ss :: subs) =
        (itemMarker ++ ss.sname) :: (ss.body ++ renderSubs subs) from by
      simp [renderSubs, renderSub]]
    rw [List.foldl_cons, extractStep_itemHeader cats st ss.sname hn hnws,
      List.foldl_append]
    rw [foldl_body cats ss.body
      ({ st with
         currentSection := some ss.sname
         sectionContent := []
         extracted := closeOut st })
      (fun x hx => ⟨(hlines x hx).1, (hlines x hx).2.1⟩) rfl]
    rw [ih _ hw']
    generalize closeOut st = E
    cases hT : st.inTarget <;>
      simp [closeOut, flushCond, secTruthy, flushBlock, hT, hsec, hbd,
        blocksOf_cons, blockOf, List.append_assoc]

lemma foldl_doc (active : List (List Char)) :
    ∀ (catsecs : List CatSec) (st : ExtState),
      WfDoc catsecs →
      closeOut ((renderDoc catsecs).foldl (extractStep active) st) =
        closeOut st ++ expectedLines catsecs active := by
  intro catsecs
  induction catsecs with
  | nil => intro st _; simp [renderDoc, expectedLines]
  | cons cs catsecs ih =>
    intro st hw
    obtain ⟨hn, hwc, hsubs⟩ := hw cs (by simp)
    have hw' : WfDoc catsecs := fun x hx => hw x (by simp [hx])
    rw [show renderDoc (cs :: catsecs) =
        (catMarker ++ cs.cname) :: (renderSubs cs.subs ++ renderDoc catsecs) from by
      simp [renderDoc, renderCat]]
    rw [List.foldl_cons, extractStep_catHeader active st cs.cname hn hwc,
      List.foldl_append]
    rw [ih _ hw']
    rw [foldl_subs active cs.subs _ hsubs]
    rw [closeOut_sectionClean _ rfl]
    by_cases hA : cs.cname ∈ active <;>
      simp [expectedLines, hA, List.append_assoc]

lemma splitOnNl_single (l : List Char) (h : '\n' ∉ l) : splitOnNl l = [l] := by
  induction l with
  | nil => rfl
  | cons c rest ih =>
    have hc : ¬ (c = '\n') := fun hEq => h (by simp [hEq])
    have hr : '\n' ∉ rest := fun hx => h (by simp [hx])
    simp [splitOnNl, hc, ih hr]

lemma splitOnNl_cons_line (l rest : List Char) (h : '\n' ∉ l) :
    splitOnNl (l ++ '\n' :: rest) = l :: splitOnNl rest := by
  induction l with
  | nil => simp [splitOnNl]
  | cons c l ih =>
    have hc : ¬ (c = '\n') := fun hEq => h (by simp [hEq])
    have hl : '\n' ∉ l := fun hx => h (by simp [hx])
    simp [splitOnNl, hc, ih hl]

lemma splitOnNl_joinNl : ∀ (ls : List (List Char)), ls ≠ [] →
    (∀ l ∈ ls, '\n' ∉ l) → splitOnNl (joinNl ls) = ls := by
  intro ls
  induction ls with
  | nil => intro hne _; exact absurd rfl hne
  | cons l ls ih =>
    intro _ h
    cases ls with
    | nil => simpa [joinNl] using splitOnNl_single l (h l (by simp))
    | cons l2 ls2 =>
      rw [show joinNl (l :: l2 :: ls2) = l ++ '\n' :: joinNl (l2 :: ls2) from rfl]
      rw [splitOnNl_cons_line l _ (h l (by simp))]
      rw [ih (by simp) (fun x hx => h x (by simp [hx]))]

lemma renderDoc_no_newline (catsecs : List CatSec) (hw : WfDoc catsecs) :
    ∀ l ∈ renderDoc catsecs, '\n' ∉ l := by
  intro l hl
  simp only [renderDoc, List.mem_flatten, List.mem_map] at hl
  obtain ⟨L, ⟨cs, hcs, rfl⟩, hlL⟩ := hl
  obtain ⟨hn, hwc, hsubs⟩ := hw cs hcs
  simp only [renderCat, List.mem_cons] at hlL
  rcases hlL with rfl | hlL
  · intro hnl
    rcases List.mem_append.mp hnl with hin | hin
    · revert hin; decide
    · exact absurd (hwc '\n' hin) (by decide)
  · simp only [renderSubs, List.mem_flatten, List.mem_map] at hlL
    obtain ⟨L2, ⟨ss, hss, rfl⟩, hl2⟩ := hlL
    obtain ⟨hn2, hws, hbody, hlines⟩ := hsubs ss hss
    simp only [renderSub, List.mem_cons] at hl2
    rcases hl2 with rfl | hl2
    · intro hnl
      rcases List.mem_append.mp hnl with hin | hin
      · revert hin; decide
      · exact absurd (hws '\n' hin) (by decide)
    · exact (hlines l hl2).2.2

/-- C7: on a well-formed reference document, the extraction output is exactly
the re-rendered headers and bodies of the subsections under active category
headers, in source order (joined and stripped); inactive categories contribute
nothing. -/
theorem extract_sections_filters (catsecs : List CatSec) (active : List (List Char))
    (hw : WfDoc catsecs) :
    extract_sections (joinNl (renderDoc catsecs)) active =
      stripChars (joinNl (expectedLines catsecs active)) := by
  cases catsecs with
  | nil => rfl
  | cons cs rest =>
    have hne : renderDoc (cs :: rest) ≠ [] := by simp [renderDoc, renderCat]
    unfold extract_sections
    rw [splitOnNl_joinNl _ hne (renderDoc_no_newline _ hw)]
    rw [foldl_doc active _ initExtState hw]
    rw [closeOut_sectionClean initExtState rfl]
    simp [initExtState]

/-- C7 witness: the spec's example — active `[dev]` keeps `### alpha`/"do X"
and drops `beta`/"do Y"; the concrete output equals `### alpha\ndo X`. -/
theorem extract_sections_filters_witness :
    extract_sections (joinNl (renderDoc refDocSecs)) ["dev".toList] =
      stripChars (joinNl (expectedLines refDocSecs ["dev".toList])) ∧
    stripChars (joinNl (expectedLines refDocSecs ["dev".toList])) =
      "### alpha\ndo X".toList :=
  ⟨extract_sections_filters refDocSecs ["dev".toList] (by decide), by decide⟩

end InitProject

